import Mathlib

/-!
# Verification of the `leaf` package manager core

Shallow embedding of the core install/remove/search/list pipeline of the
`leaf` package manager (Rust sources in `src/installer.rs`,
`src/package_manager.rs`, `src/package.rs`), together with theorems settling
the frozen specification claims.

Conventions of the embedding:
* Filesystem paths are plain strings joined with `"/"`.
* A filesystem is modelled as a function from path to optional content
  (or to a `Bool` existence flag where only existence matters in the code).
* `HashMap`s of the Rust code are modelled as association lists looked up by
  first match; `serde_json::Value` is modelled by the inductive `Json`.
* Asynchronous effects are irrelevant to the claims; each operation is
  modelled as a pure state transformer, with external effects (network body,
  subprocess execution, on-disk existence) passed as explicit oracles.
-/

namespace Leaf

/-! ## String primitives

Rust `str` operations used by the sources, implemented structurally over the
character list of a `String` so that every definition evaluates by kernel
reduction on concrete inputs. -/

/-- Rust `str::ends_with(&str)`. -/
def strEndsWith (s suffix : String) : Bool :=
  suffix.data.reverse.isPrefixOf s.data.reverse

/-- Rust `str::starts_with(&str)`. -/
def strStartsWith (s pre : String) : Bool :=
  pre.data.isPrefixOf s.data

/-- Rust `str::is_empty`. -/
def strIsEmpty (s : String) : Bool :=
  s.data.isEmpty

/-- Splitting loop for `strSplitOn`: cut the list at each non-overlapping
occurrence of `sep`, scanning left to right. The fuel argument makes the
recursion structural; callers pass more fuel than the list length, which is
always enough because each step consumes at least one character. -/
def splitOnAux (sep : List Char) : Nat → List Char → List (List Char)
  | 0, l => [l]
  | _fuel + 1, [] => [[]]
  | fuel + 1, c :: rest =>
      if sep.isPrefixOf (c :: rest) && !sep.isEmpty then
        [] :: splitOnAux sep fuel (List.drop sep.length (c :: rest))
      else
        match splitOnAux sep fuel rest with
        | [] => [[c]]
        | piece :: pieces => (c :: piece) :: pieces

/-- Rust `str::split(&str)` collected into a list (for the non-empty
separators the sources use). -/
def strSplitOn (s sep : String) : List String :=
  (splitOnAux sep.data (s.data.length + 1) s.data).map String.mk

/-- Replacement loop for `strReplace`, non-overlapping and left to right,
with the same fuel convention as `splitOnAux`. -/
def replaceAux (pat rep : List Char) : Nat → List Char → List Char
  | 0, l => l
  | _fuel + 1, [] => []
  | fuel + 1, c :: rest =>
      if pat.isPrefixOf (c :: rest) && !pat.isEmpty then
        rep ++ replaceAux pat rep fuel (List.drop pat.length (c :: rest))
      else
        c :: replaceAux pat rep fuel rest

/-- Rust `str::replace(&str, &str)` (for the non-empty patterns the sources
use). -/
def strReplace (s pat rep : String) : String :=
  String.mk (replaceAux pat.data rep.data (s.data.length + 1) s.data)

/-- Rust `str::to_lowercase`, restricted to the ASCII mapping
(`Char.toLower`); the sources lowercase package names, descriptions, tags
and search terms. -/
def strToLower (s : String) : String :=
  String.mk (s.data.map Char.toLower)

/-- Model of `serde_json::Value` (the polymorphic `executables` field). -/
inductive Json where
  | null : Json
  | bool (b : Bool) : Json
  | num (n : Int) : Json
  | str (s : String) : Json
  | arr (items : List Json) : Json
  | obj (fields : List (String × Json)) : Json
deriving Repr

/-- Model of `ExecutableInfo` from `src/package.rs`. -/
structure ExecutableInfo where
  path : String
  name : Option String
deriving Repr, DecidableEq

/-- Model of `PlatformDetails` from `src/package.rs`. -/
structure PlatformDetails where
  url : String
  package_type : Option String
  executables : Option Json
  build_commands : Option (List String)
deriving Repr

/-- Model of `Package` from `src/package.rs`; the `platforms` `HashMap` is an
association list keyed by platform string. -/
structure Package where
  description : String
  version : String
  tags : Option (List String)
  platforms : List (String × PlatformDetails)
deriving Repr

/-- First-match association-list lookup, modelling `HashMap::get` /
`serde_json::Map::get` (keys are unique in well-formed data). -/
def lookup {α : Type} (l : List (String × α)) (k : String) : Option α :=
  match l.find? (fun p => p.1 == k) with
  | some p => some p.2
  | none => none

/-- `PlatformDetails::get_executables` from `src/package.rs`: normalize the
polymorphic `executables` JSON value (string | array of strings | array of
`{path, name?}` objects) into a list of `ExecutableInfo`. -/
def PlatformDetails.get_executables (pd : PlatformDetails) : List ExecutableInfo :=
  match pd.executables with
  | some (Json.str path) => [{ path := path, name := none }]
  | some (Json.arr items) =>
      items.filterMap (fun item =>
        match item with
        | Json.str path => some { path := path, name := none }
        | Json.obj fields =>
            match lookup fields "path" with
            | some (Json.str path) =>
                let name := match lookup fields "name" with
                  | some (Json.str n) => some n
                  | _ => none
                some { path := path, name := name }
            | _ => none
        | _ => none)
  | _ => []

/-- `PlatformDetails::get_build_commands` from `src/package.rs`. -/
def PlatformDetails.get_build_commands (pd : PlatformDetails) : List String :=
  pd.build_commands.getD []

/-! ## Archive extraction (`extract_archive_sync`, `src/installer.rs`) -/

/-- The decoder selected by `extract_archive_sync`'s suffix dispatch. -/
inductive ExtractAction where
  | unpackGzTar : ExtractAction
  | unpackXzTar : ExtractAction
deriving Repr, DecidableEq

/-- Suffix dispatch of `extract_archive_sync` in `src/installer.rs`:
`.tar.gz`/`.tgz` select the gzip+tar decoder, `.tar.xz` the xz+tar decoder,
and every other filename is rejected with the `Unsupported archive format`
error before any decoder runs. -/
def extract_archive_sync (filename : String) : Except String ExtractAction :=
  if strEndsWith filename ".tar.gz" || strEndsWith filename ".tgz" then
    Except.ok ExtractAction.unpackGzTar
  else if strEndsWith filename ".tar.xz" then
    Except.ok ExtractAction.unpackXzTar
  else
    Except.error ("Unsupported archive format: " ++ filename)

/-- `extract_archive_sync` at the filesystem level: `unpack` is the effect of
`tar::Archive::unpack` with the selected decoder on the destination-directory
state `fs`; in the unsupported case the error is returned before any decoder
touches the destination. -/
def extractToDir {σ : Type} (unpack : ExtractAction → σ → σ)
    (filename : String) (fs : σ) : Except String σ :=
  match extract_archive_sync filename with
  | Except.ok a => Except.ok (unpack a fs)
  | Except.error e => Except.error e

/-! ## Filename derivation (`src/installer.rs`) -/

/-- Rust `str::trim_matches(c)`: strip every leading and trailing
occurrence of the character `c`. -/
def trimMatchesChar (c : Char) (s : String) : String :=
  String.mk (((s.toList.dropWhile (fun x => x == c)).reverse.dropWhile
    (fun x => x == c)).reverse)

/-- The regular-form branch of `parse_content_disposition_filename`:
`filename="example.zip"` or `filename=example.zip`
(split on `filename=`, cut at the first `;`, strip surrounding quotes). -/
def parseRegularFilename (content_disposition : String) : Option String :=
  match (strSplitOn content_disposition "filename=").get? 1 with
  | some regular_part =>
      let filename := (strSplitOn regular_part ";").headD regular_part
      some (trimMatchesChar '"' filename)
  | none => none

/-- `parse_content_disposition_filename` from `src/installer.rs`: first try
the RFC 5987 form `filename*=UTF-8''example.zip` (taking what follows the
first `''` and decoding only `%20`), then fall back to the regular
`filename=` form. -/
def parse_content_disposition_filename (content_disposition : String) :
    Option String :=
  match (strSplitOn content_disposition "filename*=").get? 1 with
  | some encoded_part =>
      match (strSplitOn encoded_part "''").get? 1 with
      | some filename_part => some (strReplace filename_part "%20" " ")
      | none => parseRegularFilename content_disposition
  | none => parseRegularFilename content_disposition

/-- The per-character replacement of `sanitize_filename` on Windows
(the match arm replacing each invalid character with an underscore). -/
def sanitizeChar (c : Char) : Char :=
  if c = '<' ∨ c = '>' ∨ c = ':' ∨ c = '"' ∨ c = '|' ∨ c = '?' ∨ c = '*' ∨
      c = '\\' ∨ c = '/' then '_' else c

/-- `sanitize_filename` from `src/installer.rs`. `isWindows` models
`cfg!(windows)`: only on Windows are the invalid characters replaced; an
empty result falls back to the fixed name `download` on every platform. -/
def sanitize_filename (isWindows : Bool) (filename : String) : String :=
  let sanitized :=
    if isWindows then String.mk (filename.toList.map sanitizeChar)
    else filename
  if strIsEmpty sanitized then "download" else sanitized

/-- The filename chosen by `download_file` before sanitization: the parsed
`Content-Disposition` header when present and parsable, else the final `/`
separated segment of the URL, else the fixed name `download`
(`url.split('/').last().unwrap_or("download")`). -/
def derivedFilename (content_disposition : Option String) (url : String) :
    String :=
  match content_disposition with
  | some cd =>
      (parse_content_disposition_filename cd).getD
        ((strSplitOn url "/").getLastD "download")
  | none => (strSplitOn url "/").getLastD "download"

/-! ## Download cache (`download_file`, `src/installer.rs`) -/

/-- A content filesystem: path to optional byte content. -/
def CFS : Type := String → Option (List Nat)

/-- `download_file` from `src/installer.rs`, with the network response passed
as oracles: `content_disposition` is the response header and `body` the list
of body chunks. Derives and sanitizes the filename, returns the cached path
unchanged when the file already exists in the cache directory, and otherwise
streams the body chunks into the new cache file. -/
def download_file (isWindows : Bool) (content_disposition : Option String)
    (body : List (List Nat)) (url : String) (cache_dir : String)
    (fs : CFS) : String × CFS :=
  let filename := derivedFilename content_disposition url
  let safe_filename := sanitize_filename isWindows filename
  let filepath := cache_dir ++ "/" ++ safe_filename
  if (fs filepath).isSome then
    (filepath, fs)
  else
    (filepath, fun p => if p == filepath then some body.flatten else fs p)

/-! ## Platform resolver (`get_platform_details`, `src/package_manager.rs`) -/

/-- `PackageManager::get_platform_details`: normalize the running platform
string to one of the recognized keys, then look the key up in the package
platform map. -/
def get_platform_details (platform : String) (package : Package) :
    Except String PlatformDetails :=
  let platform_key? : Option String :=
    if platform == "linux-x86_64" then some "linux-x86_64"
    else if platform == "macos-x86_64" then some "macos-x86_64"
    else if platform == "macos-aarch64" then some "macos-aarch64"
    else if platform == "windows-x86_64" then some "windows-x86_64"
    else none
  match platform_key? with
  | none => Except.error ("Unsupported platform: " ++ platform)
  | some platform_key =>
      match lookup package.platforms platform_key with
      | some pd => Except.ok pd
      | none =>
          Except.error ("Package not available for platform " ++ platform)

/-! ## `list` and `search` (`src/package_manager.rs`) -/

/-- Whether an association list of platforms has an entry for `key`,
modelling `HashMap::contains_key`. -/
def containsKey {α : Type} (l : List (String × α)) (key : String) : Bool :=
  (lookup l key).isSome

/-- Whether `pat` occurs as a contiguous run inside `s`. -/
def listInfix (pat : List Char) : List Char → Bool
  | [] => pat.isPrefixOf []
  | c :: rest => pat.isPrefixOf (c :: rest) || listInfix pat rest

/-- Substring test modelling Rust `str::contains(&str)`. -/
def strContains (s pat : String) : Bool :=
  listInfix pat.toList s.toList

/-- `PackageManager::list_packages`: the packages printed are exactly the
entries of the installed map, with no filtering. -/
def list_packages (installed : List (String × Package)) :
    List (String × Package) :=
  installed

/-- The match predicate of `PackageManager::search_packages`: the search term
(lowercased) occurs in the name, the description, or one of the tags. -/
def searchMatches (term_lower : String) (name : String) (package : Package) :
    Bool :=
  let matches_name := strContains (strToLower name) term_lower
  let matches_desc := strContains (strToLower package.description) term_lower
  let matches_tags := (package.tags.getD []).any
    (fun tag => strContains (strToLower tag) term_lower)
  matches_name || matches_desc || matches_tags

/-- `PackageManager::search_packages`: skip packages whose platform map has
no entry for the resolved platform, keep those matching the term. -/
def search_packages (platform : String) (packages : List (String × Package))
    (term : String) : List (String × Package) :=
  let term_lower := strToLower term
  packages.filter (fun np =>
    containsKey np.2.platforms platform && searchMatches term_lower np.1 np.2)

/-! ## Source root discovery (`find_source_directory`, `src/installer.rs`) -/

/-- A directory entry as seen by `fs::read_dir`: its path and whether it is a
directory. -/
structure DirEntry where
  path : String
  isDir : Bool
deriving Repr, DecidableEq

/-- `Installer::find_source_directory`: collect the subdirectories of the
build directory; when there is exactly one, it is the source root, otherwise
the build directory itself is. -/
def find_source_directory (build_dir : String) (entries : List DirEntry) :
    String :=
  let dirs := (entries.filter (fun e => e.isDir)).map (fun e => e.path)
  if dirs.length = 1 then dirs.headD build_dir
  else build_dir

/-! ## Source build (`build_from_source`, `src/installer.rs`) -/

/-- The outcome of one `sh -c command` invocation (`std::process::Output`):
exit code and captured streams. `output.status.success()` is `exitCode = 0`. -/
structure CmdOutput where
  exitCode : Int
  stdoutStr : String
  stderrStr : String
deriving Repr, DecidableEq

/-- The error built on a failing build command in `build_from_source`:
`Build command failed: {command}\nStdout: {stdout}\nStderr: {stderr}`.
It quotes the command and the captured streams; the exit status is not
part of it. -/
def buildErrMsg (command : String) (out : CmdOutput) : String :=
  "Build command failed: " ++ command ++ "\nStdout: " ++ out.stdoutStr ++
    "\nStderr: " ++ out.stderrStr

/-- The command loop of `build_from_source`: run each command in order
through the oracle `run`, stopping at the first non-zero exit with the error
message. Returns the commands actually executed and the error, if any. -/
def runBuildCommands (run : String → CmdOutput) :
    List String → List String × Option String
  | [] => ([], none)
  | command :: rest =>
      let out := run command
      if out.exitCode == 0 then
        let (executed, err) := runBuildCommands run rest
        (command :: executed, err)
      else
        ([command], some (buildErrMsg command out))

/-- The executable-copy loop of `build_from_source`: copy each declared
executable from the source root into the package directory, stopping with a
`Built executable not found` error at the first missing one. Returns the
destination paths copied and the error, if any. -/
def copyBuiltExecutables (fsExists : String → Bool)
    (source_dir package_dir : String) :
    List ExecutableInfo → List String × Option String
  | [] => ([], none)
  | e :: rest =>
      let source_exe := source_dir ++ "/" ++ e.path
      let dest_exe := package_dir ++ "/" ++ e.path
      if fsExists source_exe then
        let (copied, err) :=
          copyBuiltExecutables fsExists source_dir package_dir rest
        (dest_exe :: copied, err)
      else
        ([], some ("Built executable not found: " ++ source_exe))

/-- The observable outcome of `build_from_source`: which commands ran, which
executables were copied into the package directory, and the error, if any. -/
structure BuildResult where
  executed : List String
  copied : List String
  buildError : Option String
deriving Repr, DecidableEq

/-- `Installer::build_from_source` from `src/installer.rs`, after extraction
into the scratch directory: fail if there are no build commands, run the
commands in order aborting at the first failure, and only when all succeed
copy the declared executables into the package directory. `run` is the
subprocess oracle and `fsExists` the on-disk existence oracle. -/
def build_from_source (run : String → CmdOutput) (fsExists : String → Bool)
    (name : String) (platform_details : PlatformDetails)
    (source_dir package_dir : String) : BuildResult :=
  let build_commands := platform_details.get_build_commands
  if build_commands.isEmpty then
    { executed := [], copied := [],
      buildError :=
        some ("No build commands specified for package '" ++ name ++ "'") }
  else
    match runBuildCommands run build_commands with
    | (executed, some msg) =>
        { executed := executed, copied := [], buildError := some msg }
    | (executed, none) =>
        let (copied, err) := copyBuiltExecutables fsExists source_dir
          package_dir platform_details.get_executables
        { executed := executed, copied := copied, buildError := err }

/-! ## Binary install (`install_package` `"binary"` arm, `src/installer.rs`) -/

/-- A file in the mode-aware filesystem: content bytes and permission mode. -/
structure MFile where
  content : List Nat
  mode : Nat
deriving Repr, DecidableEq

/-- A mode-aware filesystem: path to optional file. -/
def MFS : Type := String → Option MFile

/-- The `"binary"` arm of `Installer::install_package`: take entry 0 of the
normalized executables list (failing when the list is empty), copy the cached
artifact to `package_dir/executable.path`, and set mode `0o755` on the copy.
Further entries of the list are never consulted. -/
def installBinary (name : String) (platform_details : PlatformDetails)
    (cache_file_path package_dir : String) (fs : MFS) :
    Except String MFS :=
  let executables := platform_details.get_executables
  match executables.get? 0 with
  | none =>
      Except.error ("Binary package '" ++ name ++ "' has no executables listed")
  | some executable =>
      let dest_path := package_dir ++ "/" ++ executable.path
      match fs cache_file_path with
      | none => Except.error ("No such file: " ++ cache_file_path)
      | some src =>
          Except.ok (fun p =>
            if p == dest_path then some { content := src.content, mode := 0o755 }
            else fs p)

/-! ## Executable linking (`install_package` link loop, `src/package_manager.rs`) -/

/-- An entry the linker puts at `bin_dir/alias`: a symbolic link on Unix or a
file copy on Windows, in both cases determined by the target path. -/
inductive BinEntry where
  | link (target : String)
  | copyOf (target : String)
deriving Repr, DecidableEq

/-- The bin-directory state: alias path to optional entry. -/
def BinState : Type := String → Option BinEntry

/-- Final `/`-separated segment of a path, modelling `Path::file_name`
together with `unwrap_or_default` (empty on a pathological path). -/
def lastSegment (p : String) : String :=
  (strSplitOn p "/").getLastD ""

/-- The link target of a spec: `package_dir/spec.path`. -/
def linkTarget (package_dir : String) (e : ExecutableInfo) : String :=
  package_dir ++ "/" ++ e.path

/-- The bin-directory path of a spec: `bin_dir/(name or final segment)`. -/
def linkAlias (package_dir bin_dir : String) (e : ExecutableInfo) : String :=
  bin_dir ++ "/" ++ (e.name.getD (lastSegment (linkTarget package_dir e)))

/-- One iteration of the executable-link loop in
`PackageManager::install_package`: when the target exists, remove any entry
at `bin_dir/alias` and create the fresh link (or copy, via `mkEntry`);
otherwise leave the state alone. Link creation writes only into the bin
directory, so the `fsExists` oracle over the package directory is
unaffected. -/
def processSpec (mkEntry : String → BinEntry) (fsExists : String → Bool)
    (package_dir bin_dir : String) (st : BinState) (e : ExecutableInfo) :
    BinState :=
  let exe_path := linkTarget package_dir e
  let symlink_path := linkAlias package_dir bin_dir e
  if fsExists exe_path then
    fun p => if p == symlink_path then some (mkEntry exe_path) else st p
  else st

/-- The executable-link loop of `PackageManager::install_package`: process
each spec in order. -/
def linkExecutables (mkEntry : String → BinEntry) (fsExists : String → Bool)
    (package_dir bin_dir : String) (specs : List ExecutableInfo)
    (st : BinState) : BinState :=
  specs.foldl (processSpec mkEntry fsExists package_dir bin_dir) st

/-! ## Removal (`remove_package`, `src/package_manager.rs`) -/

/-- A filesystem deletion performed by `remove_package`: `fs::remove_file`
on one path, or `fs::remove_dir_all` deleting a directory tree at once. -/
inductive FsAction where
  | removeFile (p : String)
  | removeDirAll (p : String)
deriving Repr, DecidableEq

/-- `HashMap::remove` on the association-list model. -/
def removeEntry {α : Type} (l : List (String × α)) (k : String) :
    List (String × α) :=
  l.eraseP (fun p => p.1 == k)

/-- `PackageManager::remove_package`: warn and change nothing when the name
is not installed; otherwise remove each existing `bin_dir/alias` entry of the
resolved variant, then remove the whole package directory with one
`remove_dir_all`, and drop the name from the installed map. Returns the
deletion trace in program order together with the new installed map. -/
def remove_package (platform : String)
    (installed : List (String × Package)) (bin_dir packages_dir : String)
    (fsExists : String → Bool) (name : String) :
    List FsAction × List (String × Package) :=
  match lookup installed name with
  | none => ([], installed)
  | some package =>
      let package_dir := packages_dir ++ "/" ++ name
      let symlinkRemovals :=
        match get_platform_details platform package with
        | Except.ok platform_details =>
            platform_details.get_executables.filterMap (fun e =>
              let symlink_path := linkAlias package_dir bin_dir e
              if fsExists symlink_path then
                some (FsAction.removeFile symlink_path)
              else none)
        | Except.error _ => []
      let dirRemovals :=
        if fsExists package_dir then [FsAction.removeDirAll package_dir]
        else []
      (symlinkRemovals ++ dirRemovals, removeEntry installed name)

/-- Whether an action is the deletion of the `leaf-package.json` record of
the package directory. -/
def isRecordDelete (package_dir : String) (a : FsAction) : Bool :=
  a == FsAction.removeFile (package_dir ++ "/leaf-package.json")

/-- Whether an action deletes files of the package directory. -/
def touchesPackageDir (package_dir : String) (a : FsAction) : Bool :=
  match a with
  | FsAction.removeFile p => strStartsWith p (package_dir ++ "/")
  | FsAction.removeDirAll p =>
      p == package_dir || strStartsWith p (package_dir ++ "/")

/-- The ordering property claimed of removal: scanning the deletion trace in
order, the record file of the package directory is deleted, and it is
deleted strictly before any other deletion touching the package directory. -/
def recordDeletedFirst (package_dir : String) : List FsAction → Bool
  | [] => false
  | a :: rest =>
      if isRecordDelete package_dir a then true
      else if touchesPackageDir package_dir a then false
      else recordDeletedFirst package_dir rest

/-! ## Install guard (`install_package`, `src/package_manager.rs`) -/

/-- The manager-level `PackageManager::install_package`, with the downstream
pipeline (installer, link loop, metadata write) abstracted as the state
transformer `doInstall` on the filesystem state `σ`: warn and change nothing
when the name is already installed, otherwise resolve the package and its
platform variant and run the pipeline, recording the name on success. -/
def pm_install_package {σ : Type} (doInstall : σ → Except String σ)
    (platform : String) (packages installed : List (String × Package))
    (name : String) (s : σ) : Except String (List (String × Package) × σ) :=
  if (lookup installed name).isSome then Except.ok (installed, s)
  else
    match lookup packages name with
    | none => Except.error ("Package '" ++ name ++ "' not found")
    | some package =>
        match get_platform_details platform package with
        | Except.error e => Except.error e
        | Except.ok _ =>
            match doInstall s with
            | Except.error e => Except.error e
            | Except.ok s2 => Except.ok ((name, package) :: installed, s2)

/-! ## Concrete fixtures used by witnesses and counterexamples -/

/-- A platform variant with no executables listed (archive default). -/
def pdLinux : PlatformDetails :=
  { url := "http://x/foo.tar.gz", package_type := none,
    executables := none, build_commands := none }

/-- A package available only for `linux-x86_64`. -/
def pkgFoo : Package :=
  { description := "a demo tool", version := "1.0", tags := none,
    platforms := [("linux-x86_64", pdLinux)] }

/-- A package whose platform map is empty. -/
def pkgNoPlatform : Package :=
  { description := "orphan", version := "1.0", tags := none, platforms := [] }

/-- A build-type variant with three build steps and one executable. -/
def pdBuild : PlatformDetails :=
  { url := "http://x/foo.tar.gz", package_type := some "build",
    executables := some (Json.str "bin/foo"),
    build_commands := some ["./configure", "make", "make install"] }

/-- A binary-type variant listing two executables. -/
def pdBinary : PlatformDetails :=
  { url := "http://x/tool", package_type := some "binary",
    executables := some (Json.arr [Json.str "bin/a", Json.str "bin/b"]),
    build_commands := none }

/-- A binary-type variant listing no executables. -/
def pdBinaryEmpty : PlatformDetails :=
  { url := "http://x/tool", package_type := some "binary",
    executables := none, build_commands := none }

/-- A cache filesystem holding exactly `/cache/foo.tar.gz`. -/
def cacheFs : CFS :=
  fun p => if p == "/cache/foo.tar.gz" then some [1, 2, 3] else none

/-- A mode-aware filesystem holding exactly the cached artifact. -/
def binMfs : MFS :=
  fun p => if p == "/cache/tool" then some { content := [7, 7], mode := 0o644 }
    else none

end Leaf

namespace Leaf

/-! ## Claim C1: archive format dispatch -/

/-- C1, counterexample: the claim states that a path ending in `.zip` is
decoded as zip, but `extract_archive_sync` has no zip branch at all: a
`.zip` archive falls into the catch-all and fails with the
`Unsupported archive format` error. -/
theorem c1_zip_counterexample :
    extract_archive_sync "pkg.zip" =
      Except.error "Unsupported archive format: pkg.zip" := by
  rfl

/-- C1, amended: extraction dispatches purely on the filename suffix —
`.tar.gz`/`.tgz` decode as gzip+tar and `.tar.xz` as xz+tar, while any other
suffix (including `.zip`) fails with `Unsupported archive format` and writes
zero files to the destination directory. -/
theorem c1_extract_dispatch (filename : String) :
    ((strEndsWith filename ".tar.gz" = true ∨ strEndsWith filename ".tgz" = true) →
      extract_archive_sync filename = Except.ok ExtractAction.unpackGzTar) ∧
    (strEndsWith filename ".tar.gz" = false → strEndsWith filename ".tgz" = false →
      strEndsWith filename ".tar.xz" = true →
      extract_archive_sync filename = Except.ok ExtractAction.unpackXzTar) ∧
    (strEndsWith filename ".tar.gz" = false → strEndsWith filename ".tgz" = false →
      strEndsWith filename ".tar.xz" = false →
      ∀ (σ : Type) (unpack : ExtractAction → σ → σ) (fs : σ),
        extractToDir unpack filename fs =
          Except.error ("Unsupported archive format: " ++ filename)) := by
  refine ⟨fun h => ?_, fun h1 h2 h3 => ?_, fun h1 h2 h3 σ unpack fs => ?_⟩
  · rcases h with h | h <;> simp [extract_archive_sync, h]
  · simp [extract_archive_sync, h1, h2, h3]
  · simp [extractToDir, extract_archive_sync, h1, h2, h3]

/-- Witness for `c1_extract_dispatch` at concrete filenames of each kind. -/
theorem c1_extract_dispatch_witness :
    extract_archive_sync "a.tar.gz" = Except.ok ExtractAction.unpackGzTar ∧
    extract_archive_sync "b.tar.xz" = Except.ok ExtractAction.unpackXzTar ∧
    extractToDir (fun _ (fs : List String) => "unpacked" :: fs) "c.zip" [] =
      Except.error "Unsupported archive format: c.zip" :=
  ⟨(c1_extract_dispatch "a.tar.gz").1 (Or.inl (by decide)),
   (c1_extract_dispatch "b.tar.xz").2.1 (by decide) (by decide) (by decide),
   (c1_extract_dispatch "c.zip").2.2 (by decide) (by decide) (by decide)
     (List String) (fun _ fs => "unpacked" :: fs) []⟩

/-! ## Claim C2: record deletion order during removal -/

/-- C2, counterexample: removing the installed package `foo` produces a
deletion trace whose only action touching the package directory is a single
`remove_dir_all` of the whole directory — the record file
`leaf-package.json` is never deleted strictly before the other files. -/
theorem c2_record_order_counterexample :
    recordDeletedFirst "/packages/foo"
      (remove_package "linux-x86_64" [("foo", pkgFoo)] "/bin" "/packages"
        (fun p => p == "/packages/foo" || p == "/packages/foo/leaf-package.json")
        "foo").1 = false := by
  rfl

/-- C2, amended: for every installed package, removal first deletes existing
bin-directory entries and then deletes the entire package directory —
record file included — in one `remove_dir_all`; there is no separate,
earlier deletion of the record file. -/
theorem c2_remove_order (platform : String)
    (installed : List (String × Package)) (bin_dir packages_dir : String)
    (fsExists : String → Bool) (name : String) (package : Package)
    (hin : lookup installed name = some package)
    (hdir : fsExists (packages_dir ++ "/" ++ name) = true) :
    ∃ pre,
      (remove_package platform installed bin_dir packages_dir fsExists
          name).1 =
        pre ++ [FsAction.removeDirAll (packages_dir ++ "/" ++ name)] ∧
      ∀ a ∈ pre, ∃ s, a = FsAction.removeFile (bin_dir ++ "/" ++ s) := by
  unfold remove_package
  rw [hin]
  simp only [hdir, if_true]
  refine ⟨_, rfl, ?_⟩
  intro a ha
  cases hpd : get_platform_details platform package with
  | ok platform_details =>
      rw [hpd] at ha
      rcases List.mem_filterMap.mp ha with ⟨e, _, he⟩
      by_cases hex : fsExists (linkAlias (packages_dir ++ "/" ++ name) bin_dir e) = true
      · rw [if_pos hex] at he
        exact ⟨_, (Option.some_injective _ he).symm⟩
      · rw [if_neg hex] at he
        exact absurd he (by simp)
  | error e =>
      rw [hpd] at ha
      exact absurd ha (List.not_mem_nil a)

/-- Witness for `c2_remove_order` on the concrete installed package `foo`. -/
theorem c2_remove_order_witness :
    ∃ pre,
      (remove_package "linux-x86_64" [("foo", pkgFoo)] "/bin" "/packages"
          (fun p => p == "/packages/foo" ||
            p == "/packages/foo/leaf-package.json") "foo").1 =
        pre ++ [FsAction.removeDirAll ("/packages" ++ "/" ++ "foo")] ∧
      ∀ a ∈ pre, ∃ s, a = FsAction.removeFile ("/bin" ++ "/" ++ s) :=
  c2_remove_order "linux-x86_64" [("foo", pkgFoo)] "/bin" "/packages"
    (fun p => p == "/packages/foo" || p == "/packages/foo/leaf-package.json")
    "foo" pkgFoo (by rfl) (by rfl)

/-! ## Claim C3: build-step abort -/

/-- The command loop stops at the first failing command: all earlier
commands succeed, the failing one is executed last, and the error quotes the
failing command with its captured output. -/
theorem runBuildCommands_abort (run : String → CmdOutput)
    (pre : List String) (ck : String) (post : List String)
    (hpre : ∀ c ∈ pre, (run c).exitCode = 0)
    (hk : (run ck).exitCode ≠ 0) :
    runBuildCommands run (pre ++ ck :: post) =
      (pre ++ [ck], some (buildErrMsg ck (run ck))) := by
  induction pre with
  | nil =>
      simp only [List.nil_append, runBuildCommands]
      rw [if_neg (by simpa using hk)]
  | cons c cs ih =>
      have hc : (run c).exitCode = 0 := hpre c (List.mem_cons_self c cs)
      have ih2 := ih (fun d hd => hpre d (List.mem_cons_of_mem c hd))
      simp only [List.cons_append, runBuildCommands, List.append_eq]
      rw [if_pos (by simpa using hc), ih2]

/-- C3, counterexample: the failure produced by a failing build step does
not carry the exit status — two executions of the same three build steps
whose second step fails with different exit statuses (but the same captured
output) produce exactly the same failure. -/
theorem c3_exit_status_counterexample :
    build_from_source (fun _ => { exitCode := 1, stdoutStr := "o", stderrStr := "e" })
        (fun _ => true) "foo" pdBuild "/src" "/pkg" =
      build_from_source (fun _ => { exitCode := 2, stdoutStr := "o", stderrStr := "e" })
        (fun _ => true) "foo" pdBuild "/src" "/pkg" ∧
    ((fun (_ : String) =>
        ({ exitCode := 1, stdoutStr := "o", stderrStr := "e" } : CmdOutput))
          "./configure").exitCode ≠
      ((fun (_ : String) =>
        ({ exitCode := 2, stdoutStr := "o", stderrStr := "e" } : CmdOutput))
          "./configure").exitCode := by
  exact ⟨by rfl, by decide⟩

/-- C3, amended: if build step k of n is the first to exit non-zero, steps
k+1..n are never executed, no executables are copied into the package
directory, and the failure carries the offending command and its captured
stdout and stderr (the exit status itself is not part of the failure). -/
theorem c3_build_abort (run : String → CmdOutput) (fsExists : String → Bool)
    (name : String) (platform_details : PlatformDetails)
    (source_dir package_dir : String)
    (pre : List String) (ck : String) (post : List String)
    (hcmds : platform_details.get_build_commands = pre ++ ck :: post)
    (hpre : ∀ c ∈ pre, (run c).exitCode = 0)
    (hk : (run ck).exitCode ≠ 0) :
    build_from_source run fsExists name platform_details source_dir
        package_dir =
      { executed := pre ++ [ck], copied := [],
        buildError := some (buildErrMsg ck (run ck)) } := by
  unfold build_from_source
  rw [hcmds]
  have hrun := runBuildCommands_abort run pre ck post hpre hk
  have hne : (pre ++ ck :: post).isEmpty = false := by
    cases pre with
    | nil => rfl
    | cons a l => rfl
  simp only [hne, hrun, Bool.false_eq_true, if_false]

/-- Witness for `c3_build_abort`: of three build steps the second fails, so
only the first two run, nothing is copied, and the failure quotes the
second command and its output. -/
theorem c3_build_abort_witness :
    build_from_source
        (fun c => if c == "make" then { exitCode := 2, stdoutStr := "o", stderrStr := "e" }
          else { exitCode := 0, stdoutStr := "", stderrStr := "" })
        (fun _ => true) "foo" pdBuild "/src" "/pkg" =
      { executed := ["./configure", "make"], copied := [],
        buildError :=
          some "Build command failed: make\nStdout: o\nStderr: e" } :=
  c3_build_abort
    (fun c => if c == "make" then { exitCode := 2, stdoutStr := "o", stderrStr := "e" }
      else { exitCode := 0, stdoutStr := "", stderrStr := "" })
    (fun _ => true) "foo" pdBuild "/src" "/pkg"
    ["./configure"] "make" ["make install"] (by rfl)
    (by intro c hc; fin_cases hc; rfl) (by decide)

/-! ## Claim C4: already-installed and not-installed guards -/

/-- C4: installing a name already present in the installed map performs no
filesystem mutation and succeeds, and removing a name absent from the
installed map performs no deletion and succeeds. -/
theorem c4_guards {σ : Type} (doInstall : σ → Except String σ)
    (platform : String) (packages installed : List (String × Package))
    (name₁ name₂ : String) (s : σ) (bin_dir packages_dir : String)
    (fsExists : String → Bool)
    (h1 : (lookup installed name₁).isSome = true)
    (h2 : lookup installed name₂ = none) :
    pm_install_package doInstall platform packages installed name₁ s =
      Except.ok (installed, s) ∧
    remove_package platform installed bin_dir packages_dir fsExists name₂ =
      ([], installed) := by
  constructor
  · unfold pm_install_package
    rw [if_pos h1]
  · unfold remove_package
    rw [h2]

/-- Witness for `c4_guards`: `foo` is installed so a second install is the
identity; `bar` is not installed so its removal is the identity. -/
theorem c4_guards_witness :
    pm_install_package (fun (s : Nat) => Except.ok (s + 1)) "linux-x86_64"
        [("foo", pkgFoo)] [("foo", pkgFoo)] "foo" 0 =
      Except.ok ([("foo", pkgFoo)], 0) ∧
    remove_package "linux-x86_64" [("foo", pkgFoo)] "/bin" "/packages"
        (fun _ => true) "bar" =
      ([], [("foo", pkgFoo)]) :=
  c4_guards (fun s => Except.ok (s + 1)) "linux-x86_64"
    [("foo", pkgFoo)] [("foo", pkgFoo)] "foo" "bar" 0 "/bin" "/packages"
    (fun _ => true) (by rfl) (by rfl)

/-! ## Claim C5: filename derivation and sanitization -/

/-- C5: the cached filename prefers a parsable `Content-Disposition` header
(both the quoted and the extended percent-decoded form are parsed), falls
back to the final URL path segment and then to the fixed name `download`;
sanitization replaces each of the Windows-reserved characters with an
underscore on Windows and leaves every character unchanged on other
platforms. -/
theorem c5_filename_derivation :
    (∀ cd f url, parse_content_disposition_filename cd = some f →
      derivedFilename (some cd) url = f) ∧
    (∀ cd url, parse_content_disposition_filename cd = none →
      derivedFilename (some cd) url = (strSplitOn url "/").getLastD "download") ∧
    (∀ url, derivedFilename none url = (strSplitOn url "/").getLastD "download") ∧
    parse_content_disposition_filename "attachment; filename=\"example file.zip\"" =
      some "example file.zip" ∧
    parse_content_disposition_filename
        "attachment; filename*=UTF-8''example%20file.zip" =
      some "example file.zip" ∧
    (∀ f, strIsEmpty f = false →
      sanitize_filename true f = String.mk (f.data.map sanitizeChar) ∧
      sanitize_filename false f = f) ∧
    sanitize_filename true "a<b>c:d\"e|f?g*h\\i/j" = "a_b_c_d_e_f_g_h_i_j" ∧
    sanitize_filename false "a<b>c:d\"e|f?g*h\\i/j" = "a<b>c:d\"e|f?g*h\\i/j" ∧
    (∀ w, sanitize_filename w "" = "download") := by
  have hmapEmpty : ∀ (l : List Char) (g : Char → Char),
      (l.map g).isEmpty = l.isEmpty := by
    intro l g
    cases l with
    | nil => rfl
    | cons a t => rfl
  refine ⟨fun cd f url h => by simp [derivedFilename, h],
    fun cd url h => by simp [derivedFilename, h], fun url => rfl, by rfl,
    by rfl, fun f h => ⟨?_, ?_⟩, by rfl, by rfl, fun w => ?_⟩
  · have hmap : strIsEmpty (String.mk (f.data.map sanitizeChar)) = false := by
      show (f.data.map sanitizeChar).isEmpty = false
      rw [hmapEmpty]
      exact h
    simp [sanitize_filename, hmap]
  · simp [sanitize_filename, h]
  · cases w with
    | false => rfl
    | true => rfl

/-- Witness for `c5_filename_derivation` at concrete headers and URLs. -/
theorem c5_filename_derivation_witness :
    derivedFilename (some "attachment; filename=\"x.zip\"") "http://u/y" =
      "x.zip" ∧
    derivedFilename (some "no filename here") "http://u/y.tgz" =
      (strSplitOn "http://u/y.tgz" "/").getLastD "download" ∧
    (sanitize_filename true "a<b" = String.mk ("a<b".data.map sanitizeChar) ∧
      sanitize_filename false "a<b" = "a<b") :=
  ⟨c5_filename_derivation.1 "attachment; filename=\"x.zip\"" "x.zip"
      "http://u/y" (by rfl),
   c5_filename_derivation.2.1 "no filename here" "http://u/y.tgz" (by rfl),
   (c5_filename_derivation.2.2.2.2.2.1 "a<b") (by rfl)⟩

/-! ## Claim C6: cache hit writes nothing -/

/-- C6: when the derived, sanitized filename already exists in the cache
directory, `download_file` returns the cached path and the cache contents
are unchanged — no byte of the response body is persisted. -/
theorem c6_cache_hit (isWindows : Bool) (content_disposition : Option String)
    (body : List (List Nat)) (url cache_dir : String) (fs : CFS)
    (h : (fs (cache_dir ++ "/" ++
      sanitize_filename isWindows
        (derivedFilename content_disposition url))).isSome = true) :
    download_file isWindows content_disposition body url cache_dir fs =
      (cache_dir ++ "/" ++
        sanitize_filename isWindows (derivedFilename content_disposition url),
        fs) := by
  unfold download_file
  rw [if_pos h]

/-- Witness for `c6_cache_hit`: the cache already holds `foo.tar.gz`, so
fetching it again returns the cached path with the cache unchanged. -/
theorem c6_cache_hit_witness :
    download_file false none [[9, 9]] "http://x/foo.tar.gz" "/cache" cacheFs =
      ("/cache/foo.tar.gz", cacheFs) :=
  c6_cache_hit false none [[9, 9]] "http://x/foo.tar.gz" "/cache" cacheFs
    (by rfl)

/-! ## Claim C7: platform filtering of search and list -/

/-- C7, counterexample: `list_packages` prints every entry of the installed
map with no platform filtering — here it surfaces an installed package whose
platform map has no entry for the resolved platform key. -/
theorem c7_list_counterexample :
    ("p", pkgNoPlatform) ∈ list_packages [("p", pkgNoPlatform)] ∧
    containsKey pkgNoPlatform.platforms "linux-x86_64" = false :=
  ⟨List.mem_singleton_self _, rfl⟩

/-- C7, amended: `search` surfaces only packages whose platform map contains
the resolved platform key, while `list` surfaces every installed package
regardless of its platform map. -/
theorem c7_platform_filter :
    (∀ platform (packages : List (String × Package)) term entry,
      entry ∈ search_packages platform packages term →
      containsKey entry.2.platforms platform = true) ∧
    (∀ (installed : List (String × Package)) entry, entry ∈ installed →
      entry ∈ list_packages installed) := by
  constructor
  · intro platform packages term entry h
    have h2 : entry ∈ packages.filter (fun np =>
        containsKey np.2.platforms platform &&
          searchMatches (strToLower term) np.1 np.2) := h
    exact ((Bool.and_eq_true _ _).mp (List.mem_filter.mp h2).2).1
  · intro installed entry h
    exact h

/-- Witness for `c7_platform_filter`: the package surfaced by a concrete
search carries the platform key, and a concrete installed entry is listed. -/
theorem c7_platform_filter_witness :
    containsKey pkgFoo.platforms "linux-x86_64" = true ∧
    ("foo", pkgFoo) ∈ list_packages [("foo", pkgFoo)] :=
  ⟨c7_platform_filter.1 "linux-x86_64" [("foo", pkgFoo)] "foo" ("foo", pkgFoo)
      (by have hs : search_packages "linux-x86_64" [("foo", pkgFoo)] "foo" =
            [("foo", pkgFoo)] := rfl
          rw [hs]
          exact List.mem_singleton_self _),
   c7_platform_filter.2 [("foo", pkgFoo)] ("foo", pkgFoo)
     (List.mem_singleton_self _)⟩

/-! ## Claim C8: idempotence of the executable-link step -/

/-- Pointwise characterization of the link loop: the entry at an alias path
is determined by the last spec that writes it (a spec whose target exists
and whose alias is that path); aliases no spec writes keep their previous
entry. -/
theorem linkExecutables_apply (mkEntry : String → BinEntry)
    (fsExists : String → Bool) (package_dir bin_dir : String)
    (specs : List ExecutableInfo) (st : BinState) (a : String) :
    linkExecutables mkEntry fsExists package_dir bin_dir specs st a =
      match specs.reverse.find? (fun e =>
        fsExists (linkTarget package_dir e) &&
          (linkAlias package_dir bin_dir e == a)) with
      | some e => some (mkEntry (linkTarget package_dir e))
      | none => st a := by
  induction specs generalizing st with
  | nil => rfl
  | cons e rest ih =>
      show linkExecutables mkEntry fsExists package_dir bin_dir rest
          (processSpec mkEntry fsExists package_dir bin_dir st e) a = _
      rw [ih, List.reverse_cons, List.find?_append]
      cases hfind : rest.reverse.find? (fun e =>
          fsExists (linkTarget package_dir e) &&
            (linkAlias package_dir bin_dir e == a)) with
      | some e2 => rfl
      | none =>
          show processSpec mkEntry fsExists package_dir bin_dir st e a = _
          unfold processSpec
          by_cases hfs : fsExists (linkTarget package_dir e) = true
          · by_cases ha : a = linkAlias package_dir bin_dir e
            · simp [hfs, ha, List.find?]
            · have hba : (linkAlias package_dir bin_dir e == a) = false :=
                beq_eq_false_iff_ne.mpr (Ne.symm ha)
              simp [hfs, ha, hba, List.find?]
          · simp [hfs, List.find?]

/-- C8: the executable-link step is idempotent — with the same package
directory, specs and target-existence oracle, running the link loop twice in
succession leaves the bin directory in the same end state as running it
once. Specs whose target does not exist are skipped and change nothing. -/
theorem c8_link_idempotent (mkEntry : String → BinEntry)
    (fsExists : String → Bool) (package_dir bin_dir : String)
    (specs : List ExecutableInfo) (st : BinState) :
    linkExecutables mkEntry fsExists package_dir bin_dir specs
        (linkExecutables mkEntry fsExists package_dir bin_dir specs st) =
      linkExecutables mkEntry fsExists package_dir bin_dir specs st := by
  funext a
  rw [linkExecutables_apply mkEntry fsExists package_dir bin_dir specs
      (linkExecutables mkEntry fsExists package_dir bin_dir specs st) a,
    linkExecutables_apply mkEntry fsExists package_dir bin_dir specs st a]
  cases hfind : specs.reverse.find? (fun e =>
      fsExists (linkTarget package_dir e) &&
        (linkAlias package_dir bin_dir e == a)) with
  | some e => rfl
  | none => rfl

/-! ## Claim C9: effective source root -/

/-- C9: if the scratch directory contains exactly one subdirectory that
subdirectory is the source root; otherwise (zero or several subdirectories)
the scratch directory itself is. -/
theorem c9_source_root (build_dir : String) (entries : List DirEntry) :
    (∀ d, ((entries.filter (fun e => e.isDir)).map (fun e => e.path)) = [d] →
      find_source_directory build_dir entries = d) ∧
    ((((entries.filter (fun e => e.isDir)).map (fun e => e.path)).length ≠ 1) →
      find_source_directory build_dir entries = build_dir) := by
  constructor
  · intro d h
    simp only [find_source_directory]
    rw [h]
    rfl
  · intro h
    simp only [find_source_directory]
    rw [if_neg h]

/-- Witness for `c9_source_root`: one subdirectory selects it; two
subdirectories (or none) select the scratch directory itself. -/
theorem c9_source_root_witness :
    find_source_directory "/b" [⟨"/b/x", true⟩, ⟨"/b/y", false⟩] = "/b/x" ∧
    find_source_directory "/b" [⟨"/b/x", true⟩, ⟨"/b/y", true⟩] = "/b" :=
  ⟨(c9_source_root "/b" [⟨"/b/x", true⟩, ⟨"/b/y", false⟩]).1 "/b/x" (by rfl),
   (c9_source_root "/b" [⟨"/b/x", true⟩, ⟨"/b/y", true⟩]).2 (by decide)⟩

/-! ## Claim C10: binary install materializes only the first executable -/

/-- C10: a binary-kind install fails when the normalized executables list is
empty, and otherwise copies the cached artifact to the path of entry 0 only
(with mode `0o755`), leaving every other path of the filesystem unchanged —
further entries are ignored. -/
theorem c10_binary_first_executable (name : String) (pd : PlatformDetails)
    (cache_file_path package_dir : String) (fs : MFS) (src : MFile)
    (hsrc : fs cache_file_path = some src) :
    (pd.get_executables = [] →
      installBinary name pd cache_file_path package_dir fs =
        Except.error
          ("Binary package '" ++ name ++ "' has no executables listed")) ∧
    (∀ e rest, pd.get_executables = e :: rest →
      ∃ fs2,
        installBinary name pd cache_file_path package_dir fs =
          Except.ok fs2 ∧
        fs2 (package_dir ++ "/" ++ e.path) =
          some { content := src.content, mode := 0o755 } ∧
        ∀ p, p ≠ package_dir ++ "/" ++ e.path → fs2 p = fs p) := by
  constructor
  · intro h
    simp [installBinary, h]
  · intro e rest h
    refine ⟨fun p =>
      if p == package_dir ++ "/" ++ e.path then
        some { content := src.content, mode := 0o755 }
      else fs p, ?_, ?_, ?_⟩
    · simp [installBinary, h, hsrc]
    · simp
    · intro p hp
      simp [hp]

/-- Witness for `c10_binary_first_executable`: an empty executables list is
an error, and a two-entry list materializes only `bin/a`. -/
theorem c10_binary_first_executable_witness :
    installBinary "tool" pdBinaryEmpty "/cache/tool" "/packages/tool" binMfs =
      Except.error "Binary package 'tool' has no executables listed" ∧
    ∃ fs2,
      installBinary "tool" pdBinary "/cache/tool" "/packages/tool" binMfs =
        Except.ok fs2 ∧
      fs2 ("/packages/tool" ++ "/" ++ "bin/a") =
        some { content := [7, 7], mode := 0o755 } ∧
      ∀ p, p ≠ "/packages/tool" ++ "/" ++ "bin/a" → fs2 p = binMfs p :=
  ⟨(c10_binary_first_executable "tool" pdBinaryEmpty "/cache/tool"
      "/packages/tool" binMfs { content := [7, 7], mode := 0o644 }
      (by rfl)).1 (by rfl),
   (c10_binary_first_executable "tool" pdBinary "/cache/tool"
      "/packages/tool" binMfs { content := [7, 7], mode := 0o644 }
      (by rfl)).2 { path := "bin/a", name := none }
      [{ path := "bin/b", name := none }] (by rfl)⟩

end Leaf
